import Mathlib

/-!
Verification of the html-comic-reader-generator scripts.

Shallow embedding of the Python sources:
  * `manga-server/scripts/htmlcmb_v3.py` (ImageValidator, MangaAnalyzer,
    MangaHTMLGenerator, MangaReaderGenerator, natural_sort_key),
  * `manga-server/scripts/htmlcmb_v3_virtualscroll.py` (ImageValidator,
    VirtualScrollMangaGenerator, create_virtual_scroll_reader),
  * `manga-server/scripts/htmlcs_v4.py` (ReaderFileFinder, BookshelfGenerator),
  * `manga-server/scripts/create_progressive_reader.py` (create_progressive_reader),
  * `htmlc.py` (toLeftSlash, the top-level emission loop).

Filesystem paths are modelled as lists of path components (`List String`, or
`List (List Char)` where character-level reasoning is needed), relative to the
scanned root directory.  Folder contents are modelled as lists of file names,
file contents as strings.
-/

/-! ## Python string primitives used by the scripts -/

/-- Python `str.lower()` restricted to ASCII case mapping, which is all the
scripts rely on for extensions and sort keys. -/
def pyLower (s : String) : String :=
  String.mk (s.data.map Char.toLower)

/-- Characters of `name` after its last `'.'`, or `none` when `name` has no
dot.  Helper for `pySuffix`. -/
def afterLastDot : List Char → Option (List Char)
  | [] => none
  | c :: cs =>
    match afterLastDot cs with
    | some t => some t
    | none => if c = '.' then some cs else none

/-- Python `pathlib.PurePath.suffix` of a file name: the substring from the
last dot onwards, empty when there is no dot or the only dot is the leading
character (dotfiles such as `.gitignore` have no suffix). -/
def pySuffix (name : String) : String :=
  match name.data with
  | [] => ""
  | _ :: cs =>
    match afterLastDot cs with
    | some t => "." ++ String.mk t
    | none => ""

/-- Python `str.lstrip('.')`: removes every leading dot. -/
def pyLstripDots (s : String) : String :=
  String.mk (s.data.dropWhile (fun c => c = '.'))

/-- Python `str.replace(a, b)` for single characters `a`, `b`. -/
def pyReplaceChar (s : String) (a b : Char) : String :=
  String.mk (s.data.map (fun c => if c = a then b else c))

/-- Python `str.isdigit()` for ASCII strings: nonempty and all digits. -/
def pyIsdigit (s : String) : Bool :=
  !s.data.isEmpty && s.data.all Char.isDigit

/-- Python `str.title()` for ASCII strings: a letter is uppercased when it
starts a run of letters and lowercased otherwise; non-letters pass through. -/
def pyTitle (s : String) : String :=
  String.mk
    ((s.data.foldl
        (fun (acc : List Char × Bool) c =>
          if c.isAlpha then
            ((if acc.2 then c.toLower else c.toUpper) :: acc.1, true)
          else
            (c :: acc.1, false))
        ([], false)).1.reverse)

/-- Python `str.split(sep)` for a single-character separator: splits on every
occurrence, keeping empty segments (`"a..b".split('.') == ['a','','b']`,
`"".split('.') == ['']`). -/
def splitOnChar (sep : Char) : List Char → List (List Char)
  | [] => [[]]
  | c :: cs =>
    if c = sep then
      [] :: splitOnChar sep cs
    else
      match splitOnChar sep cs with
      | seg :: rest => (c :: seg) :: rest
      | [] => [[c]]

/-- One step of Python `str.replace(pat, rep)` for a nonempty pattern
`p0 :: ps`: left-to-right, non-overlapping. -/
def replaceAllAux (p0 : Char) (ps rep : List Char) : List Char → List Char
  | [] => []
  | c :: cs =>
    if (p0 :: ps).isPrefixOf (c :: cs) then
      rep ++ replaceAllAux p0 ps rep (cs.drop ps.length)
    else
      c :: replaceAllAux p0 ps rep cs
termination_by s => s.length
decreasing_by
  all_goals simp only [List.length_drop, List.length_cons]
  all_goals omega

/-- Python `str.replace(pat, rep)` on character lists (identity for the empty
pattern, which the scripts never use). -/
def replaceAll (pat rep s : List Char) : List Char :=
  match pat with
  | [] => s
  | p0 :: ps => replaceAllAux p0 ps rep s

/-- Python `str.startswith(pre)`. -/
def pyStartswith (s pre : String) : Bool :=
  pre.data.isPrefixOf s.data

/-- Strict comparison of characters by code point, as Python compares the
characters of strings. -/
def charLtb (a b : Char) : Bool :=
  decide (a < b)

/-- Generic strict lexicographic comparison of lists under a strict element
comparison, as Python compares lists and strings: a strict prefix sorts
first. -/
def lexLtb {α : Type} [DecidableEq α] (ltb : α → α → Bool) :
    List α → List α → Bool
  | _, [] => false
  | [], _ :: _ => true
  | a :: as, b :: bs => ltb a b || (decide (a = b) && lexLtb ltb as bs)

/-- Number of (possibly overlapping) occurrences of `pat` in a character
list. -/
def countOccAux (pat : List Char) : List Char → Nat
  | [] => 0
  | c :: cs => (if pat.isPrefixOf (c :: cs) then 1 else 0) + countOccAux pat cs

/-- Number of occurrences of the pattern string `pat` in `s`. -/
def countSubstr (s pat : String) : Nat :=
  countOccAux pat.data s.data

/-- Joins path components with a separator character, the way `str()` renders
a relative `pathlib` path under a given host separator convention. -/
def joinPath (sep : Char) : List (List Char) → List Char
  | [] => []
  | [c] => c
  | c :: rest => c ++ sep :: joinPath sep rest

/-! ## ImageValidator (htmlcmb_v3.py lines 54-102, htmlcmb_v3_virtualscroll.py
lines 66-99; the two copies are identical up to logging) -/

/-- Allow-list `ImageValidator.SUPPORTED_EXTENSIONS`. -/
def SUPPORTED_EXTENSIONS : List String :=
  ["png", "jpg", "jpeg", "gif", "bmp", "webp", "avif", "svg"]

/-- Block-list `ImageValidator.BLOCKED_EXTENSIONS`. -/
def BLOCKED_EXTENSIONS : List String :=
  ["html", "json", "js", "py", "ini", "txt", "rar", "zip", "7z",
   "gitignore", "url", "nomedia", "exe", "bat", "cmd", "sh"]

/-- Final component of a path (Python `PurePath.name`); empty for the empty
path. -/
def pathName (p : List String) : String :=
  (p.getLast?).getD ""

/-- The rendered path string `str(file_path)` used for MIME guessing. -/
def pathStr (p : List String) : String :=
  String.intercalate "/" p

/-- The source's `file_path.suffix.lower().lstrip('.')`. -/
def fileExtension (p : List String) : String :=
  pyLstripDots (pyLower (pySuffix (pathName p)))

/-- `ImageValidator.is_valid_image`, parameterized by the `mimetypes.guess_type`
table (`guess` returns the guessed MIME type for a rendered path string, or
`none`): block-list first, then allow-list, then the MIME fallback accepting
exactly the `image/` category. -/
def is_valid_image (guess : String → Option String) (p : List String) : Bool :=
  let extension := fileExtension p
  if BLOCKED_EXTENSIONS.contains extension then
    false
  else if SUPPORTED_EXTENSIONS.contains extension then
    true
  else
    match guess (pathStr p) with
    | some m => pyStartswith m "image/"
    | none => false

/-! ## ReaderFileFinder (htmlcs_v4.py lines 161-186) -/

/-- `ReaderFileFinder.READER_PRIORITIES`. -/
def READER_PRIORITIES : List String :=
  ["index-mb-virtualscroll.html", "index-mb.html", "index.html", "index-mobile.html"]

/-- The source's fallback test `file.suffix.lower() == '.html'`. -/
def isHtmlFile (f : String) : Bool :=
  pyLower (pySuffix f) = ".html"

/-- `ReaderFileFinder.find_reader_file`, over the list of file names present in
the book folder (in directory iteration order).  The source returns the chosen
name joined under the folder, relative to the base path; the choice of name is
modelled here.  First existing name from `READER_PRIORITIES` wins; otherwise
the first file with an `.html` suffix; otherwise `none`. -/
def find_reader_file (files : List String) : Option String :=
  match READER_PRIORITIES.find? (fun p => files.contains p) with
  | some p => some p
  | none => files.find? isHtmlFile

/-! ## create_progressive_reader (create_progressive_reader.py lines 56-87)
and create_virtual_scroll_reader (htmlcmb_v3_virtualscroll.py lines 710-735) -/

/-- Association-list lookup of a file's content in a folder model
`(name, content)` pairs. -/
def lookupFile (files : List (String × String)) (name : String) : Option String :=
  files.lookup name

/-- Overwriting write of one file into the folder model (`shutil.copy2`
replaces the destination). -/
def writeFile (files : List (String × String)) (name content : String) :
    List (String × String) :=
  (name, content) :: files.filter (fun kv => kv.1 ≠ name)

/-- `create_progressive_reader(folder_path)`: fails when the folder is missing;
otherwise copies `manga-reader-fix.html`, or failing that `index-mb.html`,
byte-for-byte to `index-mb-virtualscroll.html`; fails without writing when
neither template exists.  Returns the success flag and the resulting folder
contents. -/
def create_progressive_reader (folderExists : Bool)
    (files : List (String × String)) : Bool × List (String × String) :=
  if folderExists = false then
    (false, files)
  else
    match lookupFile files "manga-reader-fix.html" with
    | some content => (true, writeFile files "index-mb-virtualscroll.html" content)
    | none =>
      match lookupFile files "index-mb.html" with
      | some content => (true, writeFile files "index-mb-virtualscroll.html" content)
      | none => (false, files)

/-- `create_virtual_scroll_reader(folder_path)` from
htmlcmb_v3_virtualscroll.py: runs `create_progressive_reader.py` on the folder
in a subprocess and never constructs `VirtualScrollMangaGenerator`; modelled as
the direct call. -/
def create_virtual_scroll_reader (folderExists : Bool)
    (files : List (String × String)) : Bool × List (String × String) :=
  create_progressive_reader folderExists files

/-! ## Constructor validation (htmlcmb_v3.py lines 1660-1673, htmlcs_v4.py
lines 914-927) and the interactive loops -/

/-- Error classes raised by `MangaReaderGenerator.__init__` and
`BookshelfGenerator.__init__`. -/
inductive GenError where
  | notFound
  | notADirectory
deriving DecidableEq

/-- Status of the user-supplied root path in the filesystem. -/
structure PathStatus where
  pathExists : Bool
  isDir : Bool
deriving DecidableEq

/-- The validation both constructors run before any scanning or writing:
`FileNotFoundError` when the path does not exist, then `NotADirectoryError`
when it exists but is not a directory. -/
def initGenerator (p : PathStatus) : Except GenError Unit :=
  if p.pathExists = false then
    Except.error GenError.notFound
  else if p.isDir = false then
    Except.error GenError.notADirectory
  else
    Except.ok ()

/-- One invocation of generation for a root path: the list of output files
written, and the error reported, if any.  Writing happens only after
construction succeeds, so a failed construction writes nothing. -/
def runGeneration (p : PathStatus) (outputName : String) :
    List String × Option GenError :=
  match initGenerator p with
  | Except.error e => ([], some e)
  | Except.ok _ => ([outputName], none)

/-- The interactive `main()` loops: both scripts catch
`(FileNotFoundError, NotADirectoryError)`, report, and continue with the next
path, so every supplied path is processed. -/
def mainLoop (inputs : List PathStatus) : List (List String × Option GenError) :=
  inputs.map (fun p => runGeneration p "index-mb.html")

/-! ## VirtualScrollMangaGenerator mode selection and windowed content
(htmlcmb_v3_virtualscroll.py lines 105-115 and 350-360) -/

/-- The `use_virtual_scroll` resolution in
`VirtualScrollMangaGenerator.__init__`: an explicit request wins; with no
explicit mode, virtual scroll is enabled iff `total_pages > 1000`. -/
def chooseVirtualScroll (useVirtualScroll : Option Bool) (totalPages : Nat) : Bool :=
  match useVirtualScroll with
  | some b => b
  | none => decide (totalPages > 1000)

/-- `VirtualScrollMangaGenerator._generate_virtual_scroll_content`: an empty
virtual viewport plus a spacer sized from the estimated total height; no image
element is emitted up front. -/
def generate_virtual_scroll_content (totalPages : Nat) : String :=
  "    <!-- Virtual Scroll Reading Area -->\n" ++
  "    <main class=\"reader-container\" id=\"readerContainer\">\n" ++
  "        <div class=\"virtual-viewport\" id=\"virtualViewport\">\n" ++
  "            <!-- Dynamic content rendered here -->\n" ++
  "        </div>\n" ++
  "        <div class=\"scroll-spacer\" id=\"scrollSpacer\" style=\"height: " ++
  toString (totalPages * 800) ++ "px;\"></div>\n" ++
  "    </main>"

/-- The page-counter element emitted by `_generate_navigation` (line 328),
which reports the collection's total page count as `1 / {total_pages}`. -/
def pageCounterDiv (totalPages : Nat) : String :=
  "<div class=\"page-counter\" id=\"pageInfo\">1 / " ++ toString totalPages ++ "</div>"

/-- Numeric value of a list of decimal digits. -/
def digitsVal (ds : List Char) : Nat :=
  ds.foldl (fun n c => n * 10 + (c.toNat - 48)) 0

/-- Characters following the first occurrence of `pat`, or `none`. -/
def dropThroughPat (pat : List Char) : List Char → Option (List Char)
  | [] => none
  | c :: cs =>
    if pat.isPrefixOf (c :: cs) then
      some ((c :: cs).drop pat.length)
    else
      dropThroughPat pat cs

/-- Reads the total page count a generated document reports in its page
counter: the digit run following `pageInfo\">1 / `. -/
def reportedTotalPages (doc : String) : Option Nat :=
  match dropThroughPat ("pageInfo\">1 / ").data doc.data with
  | some rest =>
    let ds := rest.takeWhile Char.isDigit
    if ds.isEmpty then none else some (digitsVal ds)
  | none => none

/-! ## MangaAnalyzer (htmlcmb_v3.py lines 175-274) -/

/-- `htmlcmb_v3.Chapter`: a chapter record with its 1-based page range. -/
structure Chapter where
  number : Nat
  name : String
  folder_path : List String
  page_count : Nat
  start_page : Nat
  end_page : Nat
deriving DecidableEq

/-- `htmlcmb_v3.MangaMetadata` (the `base_path` field is the model's root and
is omitted). -/
structure MangaMetadata where
  title : String
  chapters : List Chapter
  total_pages : Nat
deriving DecidableEq

/-- `MangaAnalyzer._format_chapter_name`: separators become spaces; pure-digit
and digit-leading names render as `Chapter <name>`; an empty cleaned name
falls back to `Chapter <number>`; anything else is title-cased. -/
def format_chapter_name (folderName : String) (chapterNumber : Nat) : String :=
  let name := pyReplaceChar (pyReplaceChar folderName '_' ' ') '-' ' '
  if pyIsdigit name then
    "Chapter " ++ name
  else if (match name.data with | c :: _ => c.isDigit | [] => false) then
    "Chapter " ++ name
  else if name = "" then
    "Chapter " ++ toString chapterNumber
  else
    pyTitle name

/-- The first folder in list order that contains the image
(`image.relative_to(folder)` succeeding means the folder's components are a
prefix of the image's components); models the inner loop with `break` in
`MangaAnalyzer._group_images_by_chapter`. -/
def firstContainingFolder (folders : List (List String)) (img : List String) :
    Option (List String) :=
  folders.find? (fun f => f.isPrefixOf img)

/-- The bucket `chapter_images[folder]` built by
`MangaAnalyzer._group_images_by_chapter`: the images whose first containing
folder is `f`, in image list order. -/
def chapter_images_for (folders images : List (List String)) (f : List String) :
    List (List String) :=
  images.filter (fun img => decide (firstContainingFolder folders img = some f))

/-- Base name of a folder path (Python `folder.name`). -/
def folderBaseName (f : List String) : String :=
  (f.getLast?).getD ""

/-- The subdirectory-chapter loop of `MangaAnalyzer.analyze_manga` (lines
216-235): iterates over every scanned folder with its index `i`, skips folders
whose bucket is empty, numbers a produced chapter `i + off`, and advances the
global page cursor by the bucket size. -/
def buildChapters (allFolders images : List (List String)) (off : Nat) :
    List (List String) → Nat → Nat → List Chapter
  | [], _, _ => []
  | f :: rest, i, current =>
    let imgs := chapter_images_for allFolders images f
    if imgs.length = 0 then
      buildChapters allFolders images off rest (i + 1) current
    else
      { number := i + off
        name := format_chapter_name (folderBaseName f) (i + off)
        folder_path := f
        page_count := imgs.length
        start_page := current
        end_page := current + imgs.length - 1 } ::
        buildChapters allFolders images off rest (i + 1) (current + imgs.length)

/-- `MangaAnalyzer.analyze_manga` over root-relative component paths: images
directly in the root (`img.parent == base_path`, i.e. a single component) form
chapter 1 when present; every scanned subdirectory with a nonempty bucket
becomes a chapter numbered by its discovery index plus the root offset;
`total_pages` is the number of scanned images. -/
def analyze_manga (title : String) (folders images : List (List String)) :
    MangaMetadata :=
  let rootImages := images.filter (fun img => decide (img.length = 1))
  let rootChapters : List Chapter :=
    if rootImages.length = 0 then
      []
    else
      [{ number := 1
         name := if folders.length = 0 then "Main Chapter" else "Introduction"
         folder_path := []
         page_count := rootImages.length
         start_page := 1
         end_page := rootImages.length }]
  let off := if rootImages.length = 0 then 1 else 2
  { title := title
    chapters := rootChapters ++ buildChapters folders images off folders 0 (1 + rootImages.length)
    total_pages := images.length }

/-- Total size of the buckets of the folders in `fs` (the number of pages the
loop over `fs` will emit). -/
def pagesSum (allFolders images fs : List (List String)) : Nat :=
  (fs.map (fun f => (chapter_images_for allFolders images f).length)).sum

/-- A chapter list forms a contiguous page chain from cursor `c` to cursor
`d`: each chapter starts where the cursor stands, has a positive page count,
ends at `start + count - 1`, and advances the cursor by its count. -/
def isChain : Nat → List Chapter → Nat → Prop
  | c, [], d => c = d
  | c, ch :: rest, d =>
    ch.start_page = c ∧ 1 ≤ ch.page_count ∧
      ch.end_page = c + ch.page_count - 1 ∧ isChain (c + ch.page_count) rest d

/-! ## Natural sort (htmlcmb_v3.py lines 959-970,
create_progressive_reader.py lines 28-35) -/

/-- A token of a natural-sort key: `re.split(r'(\d+)', s)` alternates text
parts and digit runs, the digit runs converted with `int`. -/
inductive NToken where
  | text (s : String)
  | num (n : Nat)
deriving DecidableEq

/-- Feeds one character into the token list under construction (kept in
reverse order): digit runs accumulate numerically, other characters extend the
current text token. -/
def pushTokenChar (acc : List NToken) (c : Char) : List NToken :=
  if c.isDigit then
    match acc with
    | NToken.num n :: rest => NToken.num (n * 10 + (c.toNat - 48)) :: rest
    | _ => NToken.num (c.toNat - 48) :: acc
  else
    match acc with
    | NToken.text t :: rest => NToken.text (t.push c) :: rest
    | _ => NToken.text (String.singleton c) :: acc

/-- `re.split(r'(\d+)', s)` with digit groups converted to integers: an
alternating token list that starts and ends with a (possibly empty) text
token. -/
def splitNumberTokens (s : String) : List NToken :=
  let acc := s.data.foldl pushTokenChar [NToken.text ""]
  let acc2 :=
    match acc with
    | NToken.num _ :: _ => NToken.text "" :: acc
    | _ => acc
  acc2.reverse

/-- `natural_sort_key` from htmlcmb_v3.py: lowercases the name, then splits it
into text and number tokens. -/
def natural_sort_key (s : String) : List NToken :=
  splitNumberTokens (pyLower s)

/-- Strict comparison of two tokens, as Python compares list elements: numbers
by value, text code-point-wise.  Python raises `TypeError` on a number/text
pair; keys produced by `natural_sort_key` never compare a number against a
text token at the same position, and the model totalizes that case as
number-first. -/
def NToken.ltb : NToken → NToken → Bool
  | NToken.num m, NToken.num n => decide (m < n)
  | NToken.text s, NToken.text t => lexLtb charLtb s.data t.data
  | NToken.num _, NToken.text _ => true
  | NToken.text _, NToken.num _ => false

/-- Python's lexicographic list comparison over token lists: a strict prefix
sorts first. -/
def keyLtb : List NToken → List NToken → Bool :=
  lexLtb NToken.ltb

/-- The strict order `natural_sort_key s < natural_sort_key t` that drives
`list.sort(key=natural_sort_key)`. -/
def natLtb (s t : String) : Bool :=
  keyLtb (natural_sort_key s) (natural_sort_key t)

/-- The induced non-strict order (Python sorts put `s` no later than `t` iff
`not (key t < key s)`). -/
def natLeb (s t : String) : Bool :=
  !natLtb t s

/-- Insertion of an element into a sorted list under a strict order. -/
def orderedInsert (lt : α → α → Bool) (x : α) : List α → List α
  | [] => [x]
  | y :: ys => if lt x y then x :: y :: ys else y :: orderedInsert lt x ys

/-- Comparison sort under a strict order, modelling `list.sort(key=...)`. -/
def insertionSort (lt : α → α → Bool) : List α → List α
  | [] => []
  | x :: xs => orderedInsert lt x (insertionSort lt xs)

/-- Sorting filename strings by their natural-sort keys. -/
def natural_sorted (l : List String) : List String :=
  insertionSort natLtb l

/-! ## Emitted path normalization (htmlcmb_v3.py lines 996-1001, htmlcs_v4.py
lines 135-148, htmlc.py lines 15-20) -/

/-- `image_path.relative_to(base)`: succeeds exactly when `base` is a
component-prefix, returning the remaining components. -/
def relative_to (base p : List (List Char)) : Option (List (List Char)) :=
  if base.isPrefixOf p then some (p.drop base.length) else none

/-- The single-character replace `str(rel).replace('\\', '/')` applied to every
emitted reference. -/
def normalizeSlashes (s : List Char) : List Char :=
  s.map (fun c => if c = '\\' then '/' else c)

/-- An emitted image reference: the relative components are rendered with the
host separator and backslashes are then replaced by forward slashes. -/
def emitSrcPath (sep : Char) (rel : List (List Char)) : List Char :=
  normalizeSlashes (joinPath sep rel)

/-- A path component that a real directory scan can produce: nonempty, not the
parent marker, and free of separator characters. -/
def validName (n : List Char) : Prop :=
  n ≠ [] ∧ n ≠ ['.', '.'] ∧ '/' ∉ n ∧ '\\' ∉ n

/-- First stage of `htmlc.toLeftSlash`: `str.replace('\\\\', '/')`, replacing
each non-overlapping pair of backslashes with one forward slash, left to
right. -/
def replaceDoubleBackslash : List Char → List Char
  | [] => []
  | [c] => [c]
  | c1 :: c2 :: rest =>
    if c1 = '\\' ∧ c2 = '\\' then '/' :: replaceDoubleBackslash rest
    else c1 :: replaceDoubleBackslash (c2 :: rest)

/-- Third stage of `htmlc.toLeftSlash`: `str.replace('//', '/')`, collapsing
non-overlapping double slashes left to right. -/
def collapseDoubleSlash : List Char → List Char
  | [] => []
  | [c] => [c]
  | c1 :: c2 :: rest =>
    if c1 = '/' ∧ c2 = '/' then '/' :: collapseDoubleSlash rest
    else c1 :: collapseDoubleSlash (c2 :: rest)

/-- `htmlc.toLeftSlash`: pairs of backslashes become one slash, remaining
backslashes become slashes, then double slashes collapse. -/
def toLeftSlash (s : List Char) : List Char :=
  collapseDoubleSlash (normalizeSlashes (replaceDoubleBackslash s))

/-! ## htmlc.py emission loop (lines 120-125) -/

/-- The classification input of the htmlc.py loop: `img.split('.')[1]`, the
segment after the first dot of the file's full path string; `none` models the
`IndexError` raised when the path has no dot. -/
def extSegment (img : String) : Option (List Char) :=
  (splitOnChar '.' img.data)[1]?

/-- The image tag htmlc.py writes for one file: the path is slash-normalized
with `toLeftSlash` and every occurrence of the root prefix `slpath + '/'` is
removed. -/
def emitLine (slpath img : String) : String :=
  "<img src=\"" ++
    String.mk (replaceAll (slpath ++ "/").data [] (toLeftSlash img.data)) ++
    "\" class=\"image-item\"/>"

/-- The htmlc.py emission loop over the scanned file list: each file whose
first-dot segment is neither `html` nor `json` is emitted; a file whose full
path has no dot raises `IndexError`, modelled as `Except.error` carrying the
tags already emitted and the offending path, and no later file is processed. -/
def emitLoop (slpath : String) : List String → Except (List String × String) (List String)
  | [] => Except.ok []
  | img :: rest =>
    match extSegment img with
    | none => Except.error ([], img)
    | some ext =>
      if ext ≠ "html".data ∧ ext ≠ "json".data then
        match emitLoop slpath rest with
        | Except.ok tags => Except.ok (emitLine slpath img :: tags)
        | Except.error (w, m) => Except.error (emitLine slpath img :: w, m)
      else
        match emitLoop slpath rest with
        | Except.ok tags => Except.ok tags
        | Except.error (w, m) => Except.error (w, m)

/-! ## Helper lemmas -/

theorem contains_iff_mem {l : List String} {a : String} :
    l.contains a = true ↔ a ∈ l :=
  List.elem_iff

/-- A `find?` over a list hits an element of minimal index among those
satisfying the predicate. -/
theorem find?_min_indexOf {α : Type} [DecidableEq α] (p : α → Bool) :
    ∀ (l : List α) (a : α), a ∈ l → p a = true →
      ∃ b, l.find? p = some b ∧ b ∈ l ∧ p b = true ∧
        l.indexOf b ≤ l.indexOf a := by
  intro l
  induction l with
  | nil => intro a ha _; cases ha
  | cons x xs ih =>
    intro a ha hpa
    by_cases hx : p x = true
    · refine ⟨x, ?_, List.mem_cons_self x xs, hx, ?_⟩
      · exact List.find?_cons_of_pos xs hx
      · have h0 : (x :: xs).indexOf x = 0 := List.indexOf_cons_self x xs
        omega
    · have hax : a ≠ x := by
        intro he
        rw [he] at hpa
        exact hx hpa
      have hmem : a ∈ xs := by
        rcases List.mem_cons.mp ha with h | h
        · exact absurd h hax
        · exact h
      rcases ih a hmem hpa with ⟨b, hfind, hbmem, hpb, hle⟩
      have hbx : b ≠ x := by
        intro he
        rw [he] at hpb
        exact hx hpb
      refine ⟨b, ?_, List.mem_cons_of_mem x hbmem, hpb, ?_⟩
      · rw [List.find?_cons_of_neg xs hx]
        exact hfind
      · rw [List.indexOf_cons_ne xs (Ne.symm hbx), List.indexOf_cons_ne xs (Ne.symm hax)]
        omega

/-! ## Claim C4 -/

/-- C4: `ImageValidator.is_valid_image` implements the three-tier policy in
order: a block-listed extension is rejected whatever the MIME guess says; a
non-blocked allow-listed extension is accepted; otherwise the file is accepted
exactly when the MIME type guessed from the filename starts with `image/`. -/
theorem claim4_image_validator_policy (guess : String → Option String)
    (p : List String) :
    (fileExtension p ∈ BLOCKED_EXTENSIONS → is_valid_image guess p = false) ∧
    (fileExtension p ∉ BLOCKED_EXTENSIONS → fileExtension p ∈ SUPPORTED_EXTENSIONS →
      is_valid_image guess p = true) ∧
    (fileExtension p ∉ BLOCKED_EXTENSIONS → fileExtension p ∉ SUPPORTED_EXTENSIONS →
      (is_valid_image guess p = true ↔
        ∃ m, guess (pathStr p) = some m ∧ pyStartswith m "image/" = true)) := by
  have hbody : ∀ (hb : Bool) (hs : Bool),
      BLOCKED_EXTENSIONS.contains (fileExtension p) = hb →
      SUPPORTED_EXTENSIONS.contains (fileExtension p) = hs →
      is_valid_image guess p =
        (if hb then false
         else if hs then true
         else
           match guess (pathStr p) with
           | some m => pyStartswith m "image/"
           | none => false) := by
    intro hb hs h1 h2
    show (if BLOCKED_EXTENSIONS.contains (fileExtension p) then false
          else if SUPPORTED_EXTENSIONS.contains (fileExtension p) then true
          else
            match guess (pathStr p) with
            | some m => pyStartswith m "image/"
            | none => false) = _
    rw [h1, h2]
  refine ⟨?_, ?_, ?_⟩
  · intro hb
    rw [hbody true (SUPPORTED_EXTENSIONS.contains (fileExtension p))
      (contains_iff_mem.mpr hb) rfl]
    simp
  · intro hb hs
    have hb' : BLOCKED_EXTENSIONS.contains (fileExtension p) = false := by
      rcases Bool.eq_false_or_eq_true (BLOCKED_EXTENSIONS.contains (fileExtension p)) with h | h
      · exact absurd (contains_iff_mem.mp h) hb
      · exact h
    rw [hbody false true hb' (contains_iff_mem.mpr hs)]
    simp
  · intro hb hs
    have hb' : BLOCKED_EXTENSIONS.contains (fileExtension p) = false := by
      rcases Bool.eq_false_or_eq_true (BLOCKED_EXTENSIONS.contains (fileExtension p)) with h | h
      · exact absurd (contains_iff_mem.mp h) hb
      · exact h
    have hs' : SUPPORTED_EXTENSIONS.contains (fileExtension p) = false := by
      rcases Bool.eq_false_or_eq_true (SUPPORTED_EXTENSIONS.contains (fileExtension p)) with h | h
      · exact absurd (contains_iff_mem.mp h) hs
      · exact h
    rw [hbody false false hb' hs']
    simp only [Bool.false_eq_true, if_false]
    cases hg : guess (pathStr p) with
    | none =>
      constructor
      · intro h; cases h
      · rintro ⟨m, hm, _⟩; cases hm
    | some m =>
      constructor
      · intro h; exact ⟨m, rfl, h⟩
      · rintro ⟨m2, hm2, hsw⟩
        cases hm2
        exact hsw

/-- Witness for C4: a block-listed `.html` file is rejected even when the
guesser reports an image; a `.png` file is accepted with no guess available; a
`.tif` file (on neither list) is accepted exactly because the guesser reports
an `image/` type. -/
theorem claim4_image_validator_policy_witness :
    is_valid_image (fun _ => some "image/png") ["a.html"] = false ∧
    is_valid_image (fun _ => none) ["a.png"] = true ∧
    is_valid_image (fun _ => some "image/tiff") ["a.tif"] = true := by
  refine ⟨?_, ?_, ?_⟩
  · exact (claim4_image_validator_policy (fun _ => some "image/png") ["a.html"]).1
      (by decide)
  · exact (claim4_image_validator_policy (fun _ => none) ["a.png"]).2.1
      (by decide) (by decide)
  · exact ((claim4_image_validator_policy (fun _ => some "image/tiff") ["a.tif"]).2.2
      (by decide) (by decide)).mpr ⟨"image/tiff", rfl, rfl⟩

/-! ## Claim C6 -/

/-- C6: the bookshelf reader lookup returns the first existing file from the
priority list `['index-mb-virtualscroll.html', 'index-mb.html', 'index.html',
'index-mobile.html']`; only when none of these exists does it fall back to a
file with an `.html` suffix from the folder, and it returns `none` when the
folder holds no HTML file at all. -/
theorem claim6_reader_file_priority (files : List String) :
    (∀ p, p ∈ READER_PRIORITIES → p ∈ files →
      ∃ q, find_reader_file files = some q ∧ q ∈ READER_PRIORITIES ∧ q ∈ files ∧
        READER_PRIORITIES.indexOf q ≤ READER_PRIORITIES.indexOf p) ∧
    ((∀ p ∈ READER_PRIORITIES, p ∉ files) →
      ∀ q, find_reader_file files = some q → q ∈ files ∧ isHtmlFile q = true) ∧
    ((∃ f ∈ files, isHtmlFile f = true) → ∃ q, find_reader_file files = some q) ∧
    ((∀ f ∈ files, isHtmlFile f = false) → find_reader_file files = none) := by
  refine ⟨?_, ?_, ?_, ?_⟩
  · intro p hp hpf
    rcases find?_min_indexOf (fun q => files.contains q) READER_PRIORITIES p hp
        (contains_iff_mem.mpr hpf) with ⟨b, hfind, hbmem, hpb, hle⟩
    refine ⟨b, ?_, hbmem, contains_iff_mem.mp hpb, hle⟩
    unfold find_reader_file
    rw [hfind]
  · intro hnone q hq
    have hfp : READER_PRIORITIES.find? (fun p => files.contains p) = none := by
      rw [List.find?_eq_none]
      intro x hx hc
      exact hnone x hx (contains_iff_mem.mp hc)
    unfold find_reader_file at hq
    rw [hfp] at hq
    exact ⟨List.mem_of_find?_eq_some hq, List.find?_some hq⟩
  · rintro ⟨f, hf, hhtml⟩
    unfold find_reader_file
    cases hfp : READER_PRIORITIES.find? (fun p => files.contains p) with
    | some p => exact ⟨p, rfl⟩
    | none =>
      have : (files.find? isHtmlFile).isSome = true :=
        List.find?_isSome.mpr ⟨f, hf, hhtml⟩
      rcases Option.isSome_iff_exists.mp this with ⟨q, hq⟩
      exact ⟨q, hq⟩
  · intro hnot
    have hfp : READER_PRIORITIES.find? (fun p => files.contains p) = none := by
      rw [List.find?_eq_none]
      intro x hx hc
      have hxf : x ∈ files := contains_iff_mem.mp hc
      have hhtml : isHtmlFile x = true := by
        fin_cases hx <;> decide
      have := hnot x hxf
      rw [hhtml] at this
      cases this
    unfold find_reader_file
    rw [hfp]
    show files.find? isHtmlFile = none
    rw [List.find?_eq_none]
    intro x hx hfx
    have := hnot x hx
    rw [hfx] at this
    cases this

/-- Witness for C6: in a folder listing `['notes.txt', 'index.html',
'index-mb.html']`, the lookup picks `index-mb.html` (priority index 1), and in
a folder with no HTML file it returns `none`. -/
theorem claim6_reader_file_priority_witness :
    (∃ q, find_reader_file ["notes.txt", "index.html", "index-mb.html"] = some q ∧
      q ∈ READER_PRIORITIES ∧ q ∈ ["notes.txt", "index.html", "index-mb.html"] ∧
      READER_PRIORITIES.indexOf q ≤ READER_PRIORITIES.indexOf "index-mb.html") ∧
    find_reader_file ["notes.txt", "cover.jpg"] = none := by
  constructor
  · exact (claim6_reader_file_priority ["notes.txt", "index.html", "index-mb.html"]).1
      "index-mb.html" (by decide) (by decide)
  · exact (claim6_reader_file_priority ["notes.txt", "cover.jpg"]).2.2.2 (by decide)

/-! ## Claim C7 -/

/-- C7: for a root path that does not exist, construction fails with the
`FileNotFoundError` class before any scanning or writing, so the invocation
writes no output file; for a path that exists but is not a directory it fails
with `NotADirectoryError`; and the interactive loop keeps processing every
further path after either error. -/
theorem claim7_constructor_validation (p : PathStatus) (out : String) :
    (p.pathExists = false → runGeneration p out = ([], some GenError.notFound)) ∧
    (p.pathExists = true → p.isDir = false →
      runGeneration p out = ([], some GenError.notADirectory)) ∧
    (∀ inputs : List PathStatus, (mainLoop inputs).length = inputs.length) ∧
    (∀ rest : List PathStatus,
      mainLoop (p :: rest) = runGeneration p "index-mb.html" :: mainLoop rest) := by
  refine ⟨?_, ?_, ?_, ?_⟩
  · intro h
    rw [runGeneration, initGenerator, h]
    rfl
  · intro he hd
    rw [runGeneration, initGenerator, he, hd]
    rfl
  · intro inputs
    rw [mainLoop, List.length_map]
  · intro rest
    rw [mainLoop, List.map_cons]
    rfl

/-- Witness for C7: a missing path yields `notFound` and writes nothing; an
existing non-directory path yields `notADirectory` and writes nothing; a
two-element interactive session processes both inputs. -/
theorem claim7_constructor_validation_witness :
    runGeneration ⟨false, false⟩ "index-mb.html" = ([], some GenError.notFound) ∧
    runGeneration ⟨true, false⟩ "index.html" = ([], some GenError.notADirectory) ∧
    (mainLoop [⟨false, false⟩, ⟨true, true⟩]).length = 2 := by
  refine ⟨?_, ?_, ?_⟩
  · exact (claim7_constructor_validation ⟨false, false⟩ "index-mb.html").1 rfl
  · exact (claim7_constructor_validation ⟨true, false⟩ "index.html").2.1 rfl rfl
  · exact (claim7_constructor_validation ⟨true, true⟩ "x").2.2.1
      [⟨false, false⟩, ⟨true, true⟩]

/-! ## Claim C9 -/

/-- Looking up the file just written finds exactly the written content. -/
theorem lookupFile_writeFile (files : List (String × String))
    (name content : String) :
    lookupFile (writeFile files name content) name = some content := by
  rw [lookupFile, writeFile]
  simp [List.lookup]

/-- C9: `create_virtual_scroll_reader` delegates to
`create_progressive_reader` and never runs the windowed generator; the helper
copies `manga-reader-fix.html` (or, failing that, `index-mb.html`)
byte-for-byte to `index-mb-virtualscroll.html`, so the output file's content
equals the template's content; and it reports failure without writing when
neither template exists. -/
theorem claim9_progressive_reader_copy (fe : Bool)
    (files : List (String × String)) :
    create_virtual_scroll_reader fe files = create_progressive_reader fe files ∧
    (∀ c, fe = true → lookupFile files "manga-reader-fix.html" = some c →
      (create_virtual_scroll_reader fe files).1 = true ∧
      lookupFile (create_virtual_scroll_reader fe files).2
        "index-mb-virtualscroll.html" = some c) ∧
    (∀ c, fe = true → lookupFile files "manga-reader-fix.html" = none →
      lookupFile files "index-mb.html" = some c →
      (create_virtual_scroll_reader fe files).1 = true ∧
      lookupFile (create_virtual_scroll_reader fe files).2
        "index-mb-virtualscroll.html" = some c) ∧
    (fe = true → lookupFile files "manga-reader-fix.html" = none →
      lookupFile files "index-mb.html" = none →
      create_virtual_scroll_reader fe files = (false, files)) := by
  refine ⟨rfl, ?_, ?_, ?_⟩
  · intro c hfe hfix
    have hres : create_virtual_scroll_reader fe files =
        (true, writeFile files "index-mb-virtualscroll.html" c) := by
      rw [create_virtual_scroll_reader, create_progressive_reader, hfe, hfix]
      rfl
    rw [hres]
    exact ⟨rfl, lookupFile_writeFile files "index-mb-virtualscroll.html" c⟩
  · intro c hfe hfix hmb
    have hres : create_virtual_scroll_reader fe files =
        (true, writeFile files "index-mb-virtualscroll.html" c) := by
      rw [create_virtual_scroll_reader, create_progressive_reader, hfe, hfix, hmb]
      rfl
    rw [hres]
    exact ⟨rfl, lookupFile_writeFile files "index-mb-virtualscroll.html" c⟩
  · intro hfe hfix hmb
    rw [create_virtual_scroll_reader, create_progressive_reader, hfe, hfix, hmb]
    rfl

/-- Witness for C9: with only `manga-reader-fix.html` present the output file
carries the template's bytes; with neither template present the call fails and
the folder is unchanged. -/
theorem claim9_progressive_reader_copy_witness :
    (create_virtual_scroll_reader true [("manga-reader-fix.html", "TPL")]).1 = true ∧
    lookupFile (create_virtual_scroll_reader true [("manga-reader-fix.html", "TPL")]).2
      "index-mb-virtualscroll.html" = some "TPL" ∧
    create_virtual_scroll_reader true [("cover.jpg", "IMG")] =
      (false, [("cover.jpg", "IMG")]) := by
  refine ⟨?_, ?_, ?_⟩
  · exact ((claim9_progressive_reader_copy true [("manga-reader-fix.html", "TPL")]).2.1
      "TPL" rfl (by decide)).1
  · exact ((claim9_progressive_reader_copy true [("manga-reader-fix.html", "TPL")]).2.1
      "TPL" rfl (by decide)).2
  · exact (claim9_progressive_reader_copy true [("cover.jpg", "IMG")]).2.2.2
      rfl (by decide) (by decide)

/-! ## Claim C5 -/

set_option maxRecDepth 40000 in
/-- C5: with no explicit mode requested, `VirtualScrollMangaGenerator` selects
windowed (virtual-scroll) output exactly when the total page count exceeds
1000; for a 1001-page collection in windowed mode the initially rendered
content holds zero image elements — strictly fewer than the page count — while
the page counter the document emits reports a total of 1001. -/
theorem claim5_virtual_scroll_threshold :
    (∀ n : Nat, chooseVirtualScroll none n = true ↔ 1000 < n) ∧
    (∀ (b : Bool) (n : Nat), chooseVirtualScroll (some b) n = b) ∧
    chooseVirtualScroll none 1001 = true ∧
    countSubstr (generate_virtual_scroll_content 1001) "<img" = 0 ∧
    countSubstr (generate_virtual_scroll_content 1001) "<img" < 1001 ∧
    reportedTotalPages (pageCounterDiv 1001) = some 1001 := by
  refine ⟨?_, ?_, by decide, by decide, by decide, by decide⟩
  · intro n
    rw [chooseVirtualScroll]
    exact decide_eq_true_iff
  · intro b n
    rfl

/-! ## Claims C1 and C2: chapter segmentation -/

theorem buildChapters_nil (allF images : List (List String)) (off i c : Nat) :
    buildChapters allF images off [] i c = [] := rfl

theorem buildChapters_cons (allF images : List (List String)) (off : Nat)
    (f : List String) (rest : List (List String)) (i c : Nat) :
    buildChapters allF images off (f :: rest) i c =
      if (chapter_images_for allF images f).length = 0 then
        buildChapters allF images off rest (i + 1) c
      else
        { number := i + off
          name := format_chapter_name (folderBaseName f) (i + off)
          folder_path := f
          page_count := (chapter_images_for allF images f).length
          start_page := c
          end_page := c + (chapter_images_for allF images f).length - 1 } ::
          buildChapters allF images off rest (i + 1)
            (c + (chapter_images_for allF images f).length) := rfl

theorem analyze_manga_chapters_eq (title : String)
    (folders images : List (List String)) :
    (analyze_manga title folders images).chapters =
      (if (images.filter (fun img => decide (img.length = 1))).length = 0 then
        ([] : List Chapter)
       else
        [{ number := 1
           name := if folders.length = 0 then "Main Chapter" else "Introduction"
           folder_path := []
           page_count := (images.filter (fun img => decide (img.length = 1))).length
           start_page := 1
           end_page := (images.filter (fun img => decide (img.length = 1))).length }]) ++
      buildChapters folders images
        (if (images.filter (fun img => decide (img.length = 1))).length = 0 then 1 else 2)
        folders 0
        (1 + (images.filter (fun img => decide (img.length = 1))).length) := rfl

theorem analyze_manga_total_pages (title : String)
    (folders images : List (List String)) :
    (analyze_manga title folders images).total_pages = images.length := rfl

theorem pagesSum_nil_fs (allF images : List (List String)) :
    pagesSum allF images [] = 0 := rfl

theorem pagesSum_cons_fs (allF images : List (List String)) (f : List String)
    (fs : List (List String)) :
    pagesSum allF images (f :: fs) =
      (chapter_images_for allF images f).length + pagesSum allF images fs := by
  rw [pagesSum, List.map_cons, List.sum_cons, pagesSum]

theorem chapter_images_for_cons (allF : List (List String)) (img : List String)
    (rest : List (List String)) (f : List String) :
    chapter_images_for allF (img :: rest) f =
      if firstContainingFolder allF img = some f then
        img :: chapter_images_for allF rest f
      else
        chapter_images_for allF rest f := by
  unfold chapter_images_for
  rw [List.filter_cons]
  by_cases h : firstContainingFolder allF img = some f
  · rw [if_pos (decide_eq_true h), if_pos h]
  · rw [if_neg (fun hc => h (of_decide_eq_true hc)), if_neg h]

theorem chapter_images_for_images_nil (allF : List (List String)) (f : List String) :
    chapter_images_for allF [] f = [] := rfl

theorem pagesSum_images_nil (allF : List (List String)) :
    ∀ fs, pagesSum allF [] fs = 0 := by
  intro fs
  induction fs with
  | nil => rfl
  | cons f fs ih =>
    rw [pagesSum_cons_fs, ih, chapter_images_for_images_nil]
    rfl

theorem pagesSum_images_cons (allF : List (List String)) (img : List String)
    (rest : List (List String)) :
    ∀ fs, pagesSum allF (img :: rest) fs =
      (fs.map (fun f => if firstContainingFolder allF img = some f then 1 else 0)).sum
        + pagesSum allF rest fs := by
  intro fs
  induction fs with
  | nil => rfl
  | cons f fs ih =>
    rw [pagesSum_cons_fs, pagesSum_cons_fs, List.map_cons, List.sum_cons,
      chapter_images_for_cons]
    by_cases h : firstContainingFolder allF img = some f
    · rw [if_pos h, if_pos h, List.length_cons, ih]
      omega
    · rw [if_neg h, if_neg h, ih]
      omega

theorem sum_indicator_not_mem (fs : List (List String)) (f0 : List String)
    (h : f0 ∉ fs) :
    (fs.map (fun f => if f0 = f then 1 else 0)).sum = 0 := by
  induction fs with
  | nil => rfl
  | cons f fs ih =>
    rw [List.map_cons, List.sum_cons]
    have hne : f0 ≠ f := fun he => h (he ▸ List.mem_cons_self f fs)
    rw [if_neg hne, ih (fun hm => h (List.mem_cons_of_mem f hm))]

theorem sum_indicator_nodup (fs : List (List String)) (f0 : List String)
    (hnd : fs.Nodup) (hmem : f0 ∈ fs) :
    (fs.map (fun f => if f0 = f then 1 else 0)).sum = 1 := by
  induction fs with
  | nil => cases hmem
  | cons f fs ih =>
    rw [List.map_cons, List.sum_cons]
    rcases List.mem_cons.mp hmem with he | hm
    · rw [if_pos he]
      have hnotin : f ∉ fs := (List.nodup_cons.mp hnd).1
      rw [sum_indicator_not_mem fs f0 (fun hmm => hnotin (he ▸ hmm))]
    · have hne : f0 ≠ f := by
        intro he
        exact (List.nodup_cons.mp hnd).1 (he ▸ hm)
      rw [if_neg hne, ih (List.nodup_cons.mp hnd).2 hm]

theorem sum_map_none_indicator : ∀ fs : List (List String),
    (fs.map (fun f => if (none : Option (List String)) = some f then 1 else 0)).sum
      = 0 := by
  intro fs
  induction fs with
  | nil => rfl
  | cons f fs ih =>
    rw [List.map_cons, List.sum_cons, if_neg (fun hc => Option.noConfusion hc), ih]

theorem sum_first_indicator (allF fs : List (List String)) (img : List String)
    (hnd : fs.Nodup)
    (hsub : ∀ f0, firstContainingFolder allF img = some f0 → f0 ∈ fs) :
    (fs.map (fun f => if firstContainingFolder allF img = some f then 1 else 0)).sum
      = if firstContainingFolder allF img = none then 0 else 1 := by
  cases h : firstContainingFolder allF img with
  | none =>
    rw [if_pos rfl]
    exact sum_map_none_indicator fs
  | some f0 =>
    rw [if_neg (fun hc => Option.noConfusion hc)]
    have hmem : f0 ∈ fs := hsub f0 h
    have hconv : (fs.map (fun f => if some f0 = some f then 1 else 0))
        = fs.map (fun f => if f0 = f then 1 else 0) := by
      simp only [Option.some.injEq]
    rw [hconv]
    exact sum_indicator_nodup fs f0 hnd hmem

theorem images_partition (folders : List (List String)) :
    ∀ images : List (List String), folders.Nodup →
      (∀ img ∈ images, (img.length = 1 ↔ firstContainingFolder folders img = none)) →
      (images.filter (fun img => decide (img.length = 1))).length
        + pagesSum folders images folders = images.length := by
  intro images
  induction images with
  | nil =>
    intro _ _
    rw [List.filter_nil, pagesSum_images_nil]
    rfl
  | cons img rest ih =>
    intro hnd hcov
    have himg := hcov img (List.mem_cons_self img rest)
    have ihh := ih hnd (fun i hi => hcov i (List.mem_cons_of_mem img hi))
    rw [pagesSum_images_cons, List.filter_cons,
      sum_first_indicator folders folders img hnd
        (fun f0 h0 => List.mem_of_find?_eq_some h0),
      List.length_cons]
    by_cases h1 : img.length = 1
    · have hn : firstContainingFolder folders img = none := himg.mp h1
      rw [if_pos (decide_eq_true h1), if_pos hn, List.length_cons]
      omega
    · have hn : firstContainingFolder folders img ≠ none := fun hh => h1 (himg.mpr hh)
      rw [if_neg (fun hc => h1 (of_decide_eq_true hc)), if_neg hn]
      omega

theorem buildChapters_isChain (allF images : List (List String)) (off : Nat) :
    ∀ (fs : List (List String)) (i c : Nat),
      isChain c (buildChapters allF images off fs i c)
        (c + pagesSum allF images fs) := by
  intro fs
  induction fs with
  | nil =>
    intro i c
    rw [buildChapters_nil, pagesSum_nil_fs]
    show c = c + 0
    omega
  | cons f rest ih =>
    intro i c
    rw [buildChapters_cons, pagesSum_cons_fs]
    by_cases h : (chapter_images_for allF images f).length = 0
    · rw [if_pos h, h]
      have := ih (i + 1) c
      have heq : c + (0 + pagesSum allF images rest) = c + pagesSum allF images rest := by
        omega
      rw [heq]
      exact this
    · rw [if_neg h]
      refine ⟨rfl, ?_, rfl, ?_⟩
      · show 1 ≤ (chapter_images_for allF images f).length
        omega
      have := ih (i + 1) (c + (chapter_images_for allF images f).length)
      have heq : c + ((chapter_images_for allF images f).length + pagesSum allF images rest)
          = (c + (chapter_images_for allF images f).length) + pagesSum allF images rest := by
        omega
      rw [heq]
      exact this

theorem isChain_mem : ∀ (l : List Chapter) (c d : Nat), isChain c l d →
    ∀ ch ∈ l, 1 ≤ ch.page_count ∧ ch.end_page + 1 = ch.start_page + ch.page_count := by
  intro l
  induction l with
  | nil =>
    intro c d _ ch hch
    cases hch
  | cons a rest ih =>
    intro c d hc ch hch
    obtain ⟨h1, h2, h3, h4⟩ := hc
    rcases List.mem_cons.mp hch with he | hm
    · subst he
      exact ⟨h2, by omega⟩
    · exact ih (c + a.page_count) d h4 ch hm

theorem isChain_head : ∀ (a : Chapter) (l : List Chapter) (c d : Nat),
    isChain c (a :: l) d → a.start_page = c := by
  intro a l c d hc
  exact hc.1

theorem isChain_consec : ∀ (pre : List Chapter) (c d : Nat) (a b : Chapter)
    (post : List Chapter), isChain c (pre ++ a :: b :: post) d →
    a.end_page + 1 = b.start_page := by
  intro pre
  induction pre with
  | nil =>
    intro c d a b post hc
    obtain ⟨h1, h2, h3, h4⟩ := hc
    obtain ⟨h5, _, _, _⟩ := h4
    rw [h3, h5]
    omega
  | cons x pre ih =>
    intro c d a b post hc
    obtain ⟨_, _, _, h4⟩ := hc
    exact ih _ d a b post h4

theorem isChain_last : ∀ (l : List Chapter) (c d : Nat) (ch : Chapter),
    isChain c l d → l.getLast? = some ch → ch.end_page + 1 = d := by
  intro l
  induction l with
  | nil =>
    intro c d ch _ hl
    cases hl
  | cons a rest ih =>
    intro c d ch hc hl
    obtain ⟨h1, h2, h3, h4⟩ := hc
    cases rest with
    | nil =>
      have hl2 : some a = some ch := hl
      injection hl2 with hac
      have h5 : c + a.page_count = d := h4
      rw [← hac, h3]
      omega
    | cons b rest2 =>
      rw [List.getLast?_cons_cons] at hl
      exact ih (c + a.page_count) d ch h4 hl

theorem analyze_manga_isChain (title : String) (folders images : List (List String))
    (hnd : folders.Nodup)
    (hcov : ∀ img ∈ images, (img.length = 1 ↔ firstContainingFolder folders img = none)) :
    isChain 1 (analyze_manga title folders images).chapters (1 + images.length) := by
  have hpart := images_partition folders images hnd hcov
  rw [analyze_manga_chapters_eq]
  by_cases hr : (images.filter (fun img => decide (img.length = 1))).length = 0
  · rw [if_pos hr, List.nil_append]
    have hbuild := buildChapters_isChain folders images 1 folders 0
      (1 + (images.filter (fun img => decide (img.length = 1))).length)
    rw [hr] at hbuild hpart ⊢
    have h2 : (1 + 0) + pagesSum folders images folders = 1 + images.length := by
      omega
    rw [h2] at hbuild
    exact hbuild
  · rw [if_neg hr, List.singleton_append, if_neg hr]
    have hbuild := buildChapters_isChain folders images 2 folders 0
      (1 + (images.filter (fun img => decide (img.length = 1))).length)
    have h2 : (1 + (images.filter (fun img => decide (img.length = 1))).length)
        + pagesSum folders images folders = 1 + images.length := by
      omega
    rw [h2] at hbuild
    refine ⟨rfl, ?_, ?_, ?_⟩
    · show 1 ≤ (images.filter (fun img => decide (img.length = 1))).length
      omega
    · show (images.filter (fun img => decide (img.length = 1))).length
        = 1 + (images.filter (fun img => decide (img.length = 1))).length - 1
      omega
    · show isChain (1 + (images.filter (fun img => decide (img.length = 1))).length)
        (buildChapters folders images 2 folders 0
          (1 + (images.filter (fun img => decide (img.length = 1))).length))
        (1 + images.length)
      exact hbuild

/-- C1: for every scanned root — `folders` has no duplicates, and an image is
directly in the root exactly when no scanned folder contains it — every
chapter of `analyze_manga` satisfies `end_page - start_page + 1 = page_count`;
the first chapter starts at page 1; consecutive chapters meet with
`earlier.end_page + 1 = later.start_page`; and the last chapter ends at
`total_pages`, the number of scanned images. -/
theorem claim1_chapter_page_ranges (title : String) (folders images : List (List String))
    (hnd : folders.Nodup)
    (hcov : ∀ img ∈ images, (img.length = 1 ↔ firstContainingFolder folders img = none)) :
    (∀ ch ∈ (analyze_manga title folders images).chapters,
      ch.end_page - ch.start_page + 1 = ch.page_count) ∧
    (∀ ch, (analyze_manga title folders images).chapters.head? = some ch →
      ch.start_page = 1) ∧
    (∀ (pre : List Chapter) (a b : Chapter) (post : List Chapter),
      (analyze_manga title folders images).chapters = pre ++ a :: b :: post →
      a.end_page + 1 = b.start_page) ∧
    (∀ ch, (analyze_manga title folders images).chapters.getLast? = some ch →
      ch.end_page = (analyze_manga title folders images).total_pages) := by
  have hchain := analyze_manga_isChain title folders images hnd hcov
  refine ⟨?_, ?_, ?_, ?_⟩
  · intro ch hch
    have h := isChain_mem _ 1 (1 + images.length) hchain ch hch
    omega
  · intro ch hh
    cases hc : (analyze_manga title folders images).chapters with
    | nil =>
      rw [hc] at hh
      cases hh
    | cons a l =>
      rw [hc] at hh hchain
      have ha : a.start_page = 1 := isChain_head a l 1 _ hchain
      rw [List.head?_cons] at hh
      injection hh with h
      rw [← h]
      exact ha
  · intro pre a b post heq
    rw [heq] at hchain
    exact isChain_consec pre 1 (1 + images.length) a b post hchain
  · intro ch hl
    have h := isChain_last _ 1 (1 + images.length) ch hchain hl
    rw [analyze_manga_total_pages]
    omega

/-- Witness for C1: on the root `{c.jpg, ch1/a.png}` — one root image, one
chapter folder — the hypotheses hold and the last generated chapter ends at
`total_pages = 2`. -/
theorem claim1_chapter_page_ranges_witness :
    ([["ch1"]] : List (List String)).Nodup ∧
    Chapter.end_page
        { number := 2, name := "Ch1", folder_path := ["ch1"],
          page_count := 1, start_page := 2, end_page := 2 } =
      (analyze_manga "t" [["ch1"]] [["c.jpg"], ["ch1", "a.png"]]).total_pages := by
  constructor
  · decide
  · exact (claim1_chapter_page_ranges "t" [["ch1"]] [["c.jpg"], ["ch1", "a.png"]]
      (by decide) (by decide)).2.2.2
      { number := 2, name := "Ch1", folder_path := ["ch1"],
        page_count := 1, start_page := 2, end_page := 2 }
      (by decide)

theorem buildChapters_numbers (allF images : List (List String)) (off : Nat) :
    ∀ (fs : List (List String)) (i c : Nat),
      (∀ ch ∈ buildChapters allF images off fs i c, i + off ≤ ch.number) ∧
      List.Pairwise (fun a b => a.number < b.number)
        (buildChapters allF images off fs i c) := by
  intro fs
  induction fs with
  | nil =>
    intro i c
    rw [buildChapters_nil]
    exact ⟨fun ch hch => absurd hch (List.not_mem_nil ch), List.Pairwise.nil⟩
  | cons f rest ih =>
    intro i c
    rw [buildChapters_cons]
    by_cases h : (chapter_images_for allF images f).length = 0
    · rw [if_pos h]
      refine ⟨fun ch hch => ?_, (ih (i + 1) c).2⟩
      have := (ih (i + 1) c).1 ch hch
      omega
    · rw [if_neg h]
      constructor
      · intro ch hch
        rcases List.mem_cons.mp hch with he | hm
        · rw [he]
        · have := (ih (i + 1)
            (c + (chapter_images_for allF images f).length)).1 ch hm
          omega
      · refine List.Pairwise.cons ?_
          (ih (i + 1) (c + (chapter_images_for allF images f).length)).2
        intro b hb
        have := (ih (i + 1)
          (c + (chapter_images_for allF images f).length)).1 b hb
        show i + off < b.number
        omega

/-- C2 counterexample: with a scanned subdirectory that contains no images
(`emptydir`) listed before one that does (`full`), the single produced chapter
is numbered 2, not 1, so the chapter numbers are not the contiguous sequence
`1, ..., len(chapters)` the claim states. -/
theorem claim2_counterexample :
    (analyze_manga "t" [["emptydir"], ["full"]] [["full", "a.png"]]).chapters.map
        Chapter.number ≠
      List.range' 1
        (analyze_manga "t" [["emptydir"], ["full"]] [["full", "a.png"]]).chapters.length := by
  decide

/-- C2 amended: the chapter numbers of `analyze_manga` are positive and
strictly increasing in list order — each subdirectory chapter is numbered by
the discovery index of its folder plus the root offset — but a scanned
subdirectory that contributes no images still advances the index, so numbers
may skip and need not form the contiguous sequence `1..len(chapters)`. -/
theorem claim2_chapter_numbers_increasing (title : String)
    (folders images : List (List String)) :
    List.Pairwise (fun a b => a.number < b.number)
      (analyze_manga title folders images).chapters ∧
    (∀ ch ∈ (analyze_manga title folders images).chapters, 1 ≤ ch.number) := by
  rw [analyze_manga_chapters_eq]
  by_cases hr : (images.filter (fun img => decide (img.length = 1))).length = 0
  · rw [if_pos hr, List.nil_append, if_pos hr]
    have h := buildChapters_numbers folders images 1 folders 0
      (1 + (images.filter (fun img => decide (img.length = 1))).length)
    refine ⟨h.2, fun ch hch => ?_⟩
    have := h.1 ch hch
    omega
  · rw [if_neg hr, List.singleton_append, if_neg hr]
    have h := buildChapters_numbers folders images 2 folders 0
      (1 + (images.filter (fun img => decide (img.length = 1))).length)
    constructor
    · refine List.Pairwise.cons ?_ h.2
      intro b hb
      have := h.1 b hb
      show 1 < b.number
      omega
    · intro ch hch
      rcases List.mem_cons.mp hch with he | hm
      · rw [he]
      · have := h.1 ch hm
        omega

/-! ## Claim C3: natural sort -/

theorem lexLtb_nil_right {α : Type} [DecidableEq α] (ltb : α → α → Bool)
    (l : List α) : lexLtb ltb l [] = false := by
  cases l <;> rfl

theorem lexLtb_cons_cons {α : Type} [DecidableEq α] (ltb : α → α → Bool)
    (a : α) (as : List α) (b : α) (bs : List α) :
    lexLtb ltb (a :: as) (b :: bs)
      = (ltb a b || (decide (a = b) && lexLtb ltb as bs)) := rfl

theorem charLtb_trichotomy (a b : Char) :
    charLtb a b = true ∨ a = b ∨ charLtb b a = true := by
  rcases lt_trichotomy a b with h | h | h
  · exact Or.inl (decide_eq_true h)
  · exact Or.inr (Or.inl h)
  · exact Or.inr (Or.inr (decide_eq_true h))

theorem charLtb_trans (a b c : Char) :
    charLtb a b = true → charLtb b c = true → charLtb a c = true := by
  intro h1 h2
  exact decide_eq_true (lt_trans (of_decide_eq_true h1) (of_decide_eq_true h2))

theorem charLtb_asymm (a b : Char) :
    charLtb a b = true → charLtb b a = false := by
  intro h
  exact decide_eq_false (lt_asymm (of_decide_eq_true h))

theorem lexLtb_trichotomy {α : Type} [DecidableEq α] (ltb : α → α → Bool)
    (htri : ∀ a b, ltb a b = true ∨ a = b ∨ ltb b a = true) :
    ∀ l1 l2 : List α, lexLtb ltb l1 l2 = true ∨ l1 = l2 ∨ lexLtb ltb l2 l1 = true := by
  intro l1
  induction l1 with
  | nil =>
    intro l2
    cases l2 with
    | nil => exact Or.inr (Or.inl rfl)
    | cons b bs => exact Or.inl rfl
  | cons a as ih =>
    intro l2
    cases l2 with
    | nil => exact Or.inr (Or.inr rfl)
    | cons b bs =>
      rcases htri a b with h | h | h
      · left
        rw [lexLtb_cons_cons, h, Bool.true_or]
      · subst h
        rcases ih bs with h2 | h2 | h2
        · left
          simp [lexLtb_cons_cons, h2]
        · rw [h2]
          exact Or.inr (Or.inl rfl)
        · right; right
          simp [lexLtb_cons_cons, h2]
      · right; right
        rw [lexLtb_cons_cons, h, Bool.true_or]

theorem lexLtb_trans {α : Type} [DecidableEq α] (ltb : α → α → Bool)
    (htrans : ∀ a b c, ltb a b = true → ltb b c = true → ltb a c = true) :
    ∀ l1 l2 l3 : List α, lexLtb ltb l1 l2 = true → lexLtb ltb l2 l3 = true →
      lexLtb ltb l1 l3 = true := by
  intro l1
  induction l1 with
  | nil =>
    intro l2 l3 h12 h23
    cases l3 with
    | nil =>
      rw [lexLtb_nil_right] at h23
      exact Bool.noConfusion h23
    | cons c cs => rfl
  | cons a as ih =>
    intro l2 l3 h12 h23
    cases l2 with
    | nil =>
      rw [lexLtb_nil_right] at h12
      exact Bool.noConfusion h12
    | cons b bs =>
      cases l3 with
      | nil =>
        rw [lexLtb_nil_right] at h23
        exact Bool.noConfusion h23
      | cons c cs =>
        rw [lexLtb_cons_cons] at h12 h23 ⊢
        rcases Bool.or_eq_true_iff.mp h12 with hab | hab
        · rcases Bool.or_eq_true_iff.mp h23 with hbc | hbc
          · exact Bool.or_eq_true_iff.mpr (Or.inl (htrans a b c hab hbc))
          · obtain ⟨hbeq, _⟩ := Bool.and_eq_true_iff.mp hbc
            have hbc' : b = c := of_decide_eq_true hbeq
            subst hbc'
            exact Bool.or_eq_true_iff.mpr (Or.inl hab)
        · obtain ⟨habe, hrest⟩ := Bool.and_eq_true_iff.mp hab
          have hab' : a = b := of_decide_eq_true habe
          subst hab'
          rcases Bool.or_eq_true_iff.mp h23 with hbc | hbc
          · exact Bool.or_eq_true_iff.mpr (Or.inl hbc)
          · obtain ⟨hbce, hrest2⟩ := Bool.and_eq_true_iff.mp hbc
            have hbc' : a = c := of_decide_eq_true hbce
            subst hbc'
            refine Bool.or_eq_true_iff.mpr (Or.inr ?_)
            exact Bool.and_eq_true_iff.mpr ⟨decide_eq_true rfl, ih bs cs hrest hrest2⟩

theorem lexLtb_asymm {α : Type} [DecidableEq α] (ltb : α → α → Bool)
    (hasym : ∀ a b, ltb a b = true → ltb b a = false) :
    ∀ l1 l2 : List α, lexLtb ltb l1 l2 = true → lexLtb ltb l2 l1 = false := by
  intro l1
  induction l1 with
  | nil =>
    intro l2 h
    rw [lexLtb_nil_right]
  | cons a as ih =>
    intro l2 h
    cases l2 with
    | nil =>
      rw [lexLtb_nil_right] at h
      exact Bool.noConfusion h
    | cons b bs =>
      rw [lexLtb_cons_cons] at h ⊢
      rcases Bool.or_eq_true_iff.mp h with hab | hab
      · have h1 : ltb b a = false := hasym a b hab
        have h2 : decide (b = a) = false := by
          cases hde : decide (b = a)
          · rfl
          · exfalso
            have hba : b = a := of_decide_eq_true hde
            subst hba
            have hf := hasym b b hab
            rw [hf] at hab
            exact Bool.noConfusion hab
        rw [h1, h2]
        rfl
      · obtain ⟨habe, hrest⟩ := Bool.and_eq_true_iff.mp hab
        have hab' : a = b := of_decide_eq_true habe
        subst hab'
        have hirr : ltb a a = false := by
          cases hx : ltb a a
          · rfl
          · exfalso
            have hf := hasym a a hx
            rw [hf] at hx
            exact Bool.noConfusion hx
        rw [hirr, ih bs hrest, Bool.and_false]
        rfl

theorem ntoken_ltb_trichotomy (a b : NToken) :
    NToken.ltb a b = true ∨ a = b ∨ NToken.ltb b a = true := by
  cases a with
  | text s =>
    cases b with
    | text t =>
      rcases lexLtb_trichotomy charLtb charLtb_trichotomy s.data t.data with h | h | h
      · exact Or.inl h
      · refine Or.inr (Or.inl ?_)
        cases s with
        | mk d1 =>
          cases t with
          | mk d2 =>
            have hd : d1 = d2 := h
            rw [hd]
      · exact Or.inr (Or.inr h)
    | num n => exact Or.inr (Or.inr rfl)
  | num m =>
    cases b with
    | text t => exact Or.inl rfl
    | num n =>
      rcases Nat.lt_trichotomy m n with h | h | h
      · exact Or.inl (decide_eq_true h)
      · exact Or.inr (Or.inl (by rw [h]))
      · exact Or.inr (Or.inr (decide_eq_true h))

theorem ntoken_ltb_trans (a b c : NToken) :
    NToken.ltb a b = true → NToken.ltb b c = true → NToken.ltb a c = true := by
  cases a with
  | text s =>
    cases b with
    | text t =>
      cases c with
      | text u =>
        intro h1 h2
        exact lexLtb_trans charLtb charLtb_trans s.data t.data u.data h1 h2
      | num n =>
        intro _ h2
        exact Bool.noConfusion h2
    | num n =>
      intro h1 _
      exact Bool.noConfusion h1
  | num m =>
    cases b with
    | text t =>
      cases c with
      | text u =>
        intro _ _
        rfl
      | num n =>
        intro _ h2
        exact Bool.noConfusion h2
    | num n =>
      cases c with
      | text u =>
        intro _ _
        rfl
      | num k =>
        intro h1 h2
        exact decide_eq_true (Nat.lt_trans (of_decide_eq_true h1) (of_decide_eq_true h2))

theorem ntoken_ltb_asymm (a b : NToken) :
    NToken.ltb a b = true → NToken.ltb b a = false := by
  cases a with
  | text s =>
    cases b with
    | text t =>
      intro h
      exact lexLtb_asymm charLtb charLtb_asymm s.data t.data h
    | num n =>
      intro h
      exact Bool.noConfusion h
  | num m =>
    cases b with
    | text t =>
      intro _
      rfl
    | num n =>
      intro h
      exact decide_eq_false (Nat.lt_asymm (of_decide_eq_true h))

theorem keyLtb_trans (k1 k2 k3 : List NToken) :
    keyLtb k1 k2 = true → keyLtb k2 k3 = true → keyLtb k1 k3 = true :=
  lexLtb_trans NToken.ltb ntoken_ltb_trans k1 k2 k3

theorem keyLtb_trichotomy (k1 k2 : List NToken) :
    keyLtb k1 k2 = true ∨ k1 = k2 ∨ keyLtb k2 k1 = true :=
  lexLtb_trichotomy NToken.ltb ntoken_ltb_trichotomy k1 k2

theorem keyLtb_asymm (k1 k2 : List NToken) :
    keyLtb k1 k2 = true → keyLtb k2 k1 = false :=
  lexLtb_asymm NToken.ltb ntoken_ltb_asymm k1 k2

theorem keyLtb_append_num (pre : List NToken) (m n : Nat) (r1 r2 : List NToken)
    (h : m < n) :
    keyLtb (pre ++ NToken.num m :: r1) (pre ++ NToken.num n :: r2) = true := by
  induction pre with
  | nil =>
    show lexLtb NToken.ltb (NToken.num m :: r1) (NToken.num n :: r2) = true
    rw [lexLtb_cons_cons]
    have hmn : NToken.ltb (NToken.num m) (NToken.num n) = true := decide_eq_true h
    rw [hmn, Bool.true_or]
  | cons a pre ih =>
    show lexLtb NToken.ltb (a :: (pre ++ NToken.num m :: r1))
      (a :: (pre ++ NToken.num n :: r2)) = true
    rw [lexLtb_cons_cons]
    have hk : lexLtb NToken.ltb (pre ++ NToken.num m :: r1)
        (pre ++ NToken.num n :: r2) = true := ih
    rw [hk]
    simp

set_option maxRecDepth 40000 in
/-- C3: the natural-sort order is total and transitive on filename strings;
whenever two names' token sequences share a prefix and first differ at a
numeric token, the name with the smaller integer sorts first; sorting
`["img1.png", "img10.png", "img2.png"]` yields
`["img1.png", "img2.png", "img10.png"]`; and `page2.png` sorts before
`page10.png`. -/
theorem claim3_natural_sort :
    (∀ s t : String, natLeb s t = true ∨ natLeb t s = true) ∧
    (∀ s t u : String, natLeb s t = true → natLeb t u = true →
      natLeb s u = true) ∧
    (∀ (s t : String) (pre r1 r2 : List NToken) (m n : Nat),
      natural_sort_key s = pre ++ NToken.num m :: r1 →
      natural_sort_key t = pre ++ NToken.num n :: r2 →
      m < n → natLtb s t = true) ∧
    natural_sorted ["img1.png", "img10.png", "img2.png"]
      = ["img1.png", "img2.png", "img10.png"] ∧
    natLtb "page2.png" "page10.png" = true := by
  refine ⟨?_, ?_, ?_, by decide, by decide⟩
  · intro s t
    cases h : natLtb t s
    · left
      show (!natLtb t s) = true
      rw [h]
      rfl
    · right
      show (!natLtb s t) = true
      have hf : keyLtb (natural_sort_key s) (natural_sort_key t) = false :=
        keyLtb_asymm (natural_sort_key t) (natural_sort_key s) h
      rw [show natLtb s t = false from hf]
      rfl
  · intro s t u h1 h2
    show (!natLtb u s) = true
    cases hus : natLtb u s
    · rfl
    · exfalso
      have h1' : natLtb t s = false := by
        cases hts : natLtb t s
        · rfl
        · rw [show natLeb s t = !natLtb t s from rfl, hts] at h1
          exact Bool.noConfusion h1
      have h2' : natLtb u t = false := by
        cases hut : natLtb u t
        · rfl
        · rw [show natLeb t u = !natLtb u t from rfl, hut] at h2
          exact Bool.noConfusion h2
      have h1k : keyLtb (natural_sort_key t) (natural_sort_key s) = false := h1'
      have h2k : keyLtb (natural_sort_key u) (natural_sort_key t) = false := h2'
      have husk : keyLtb (natural_sort_key u) (natural_sort_key s) = true := hus
      rcases keyLtb_trichotomy (natural_sort_key t) (natural_sort_key s) with h | h | h
      · rw [h] at h1k
        exact Bool.noConfusion h1k
      · rw [← h] at husk
        rw [husk] at h2k
        exact Bool.noConfusion h2k
      · have := keyLtb_trans (natural_sort_key u) (natural_sort_key s)
          (natural_sort_key t) husk h
        rw [this] at h2k
        exact Bool.noConfusion h2k
  · intro s t pre r1 r2 m n h1 h2 hlt
    show keyLtb (natural_sort_key s) (natural_sort_key t) = true
    rw [h1, h2]
    exact keyLtb_append_num pre m n r1 r2 hlt

/-- Witness for C3: transitivity applied at `a1.png ≤ a2.png ≤ a10.png`, and
the numeric-token rule applied at `img3.png` versus `img7.png` with shared
prefix token `img`. -/
theorem claim3_natural_sort_witness :
    natLeb "a1.png" "a10.png" = true ∧ natLtb "img3.png" "img7.png" = true := by
  constructor
  · exact claim3_natural_sort.2.1 "a1.png" "a2.png" "a10.png"
      (by decide) (by decide)
  · exact claim3_natural_sort.2.2.1 "img3.png" "img7.png"
      [NToken.text "img"] [NToken.text ".png"] [NToken.text ".png"] 3 7
      (by decide) (by decide) (by decide)

/-! ## Claim C8: emitted path normalization -/

theorem relative_to_append (base p rel : List (List Char))
    (h : relative_to base p = some rel) : p = base ++ rel := by
  unfold relative_to at h
  by_cases hp : base.isPrefixOf p
  · rw [if_pos hp] at h
    injection h with h2
    rw [ List.isPrefixOf_iff_prefix, List.prefix_iff_eq_append] at hp
    rw [← h2]
    exact hp.symm
  · rw [if_neg hp] at h
    exact Option.noConfusion h

theorem normalizeSlashes_no_backslash : ∀ s : List Char,
    '\\' ∉ normalizeSlashes s := by
  intro s
  induction s with
  | nil =>
    intro h
    cases h
  | cons c cs ih =>
    intro h
    unfold normalizeSlashes at h
    rw [List.map_cons] at h
    rcases List.mem_cons.mp h with he | hm
    · by_cases hc : c = '\\'
      · rw [if_pos hc] at he
        exact absurd he (by decide)
      · rw [if_neg hc] at he
        exact hc he.symm
    · exact ih hm

theorem map_id_no_backslash : ∀ n : List Char, '\\' ∉ n →
    n.map (fun c => if c = '\\' then '/' else c) = n := by
  intro n
  induction n with
  | nil =>
    intro _
    rfl
  | cons c cs ih =>
    intro h
    rw [List.map_cons]
    have hc : c ≠ '\\' := fun he => h (he ▸ List.mem_cons_self c cs)
    rw [if_neg hc, ih (fun hm => h (List.mem_cons_of_mem c hm))]

theorem normalizeSlashes_joinPath (sep : Char) (hsep : sep = '/' ∨ sep = '\\') :
    ∀ rel : List (List Char), (∀ n ∈ rel, '\\' ∉ n) →
      normalizeSlashes (joinPath sep rel) = joinPath '/' rel := by
  intro rel
  induction rel with
  | nil =>
    intro _
    rfl
  | cons n rest ih =>
    intro hv
    cases rest with
    | nil =>
      show normalizeSlashes n = joinPath '/' [n]
      exact map_id_no_backslash n (hv n (List.mem_cons_self n []))
    | cons n2 rest2 =>
      show normalizeSlashes (n ++ sep :: joinPath sep (n2 :: rest2))
        = n ++ '/' :: joinPath '/' (n2 :: rest2)
      unfold normalizeSlashes
      rw [List.map_append, List.map_cons,
        map_id_no_backslash n (hv n (List.mem_cons_self n _))]
      have hsep2 : (if sep = '\\' then '/' else sep) = '/' := by
        rcases hsep with h | h <;> rw [h] <;> decide
      rw [hsep2]
      have hrec := ih (fun x hx => hv x (List.mem_cons_of_mem n hx))
      unfold normalizeSlashes at hrec
      rw [hrec]

theorem splitOnChar_cons (sep c : Char) (cs : List Char) :
    splitOnChar sep (c :: cs) =
      if c = sep then
        [] :: splitOnChar sep cs
      else
        match splitOnChar sep cs with
        | seg :: rest => (c :: seg) :: rest
        | [] => [[c]] := rfl

theorem splitOnChar_no_sep : ∀ n : List Char, '/' ∉ n →
    splitOnChar '/' n = [n] := by
  intro n
  induction n with
  | nil =>
    intro _
    rfl
  | cons c cs ih =>
    intro h
    have hc : c ≠ '/' := fun he => h (he ▸ List.mem_cons_self c cs)
    rw [splitOnChar_cons, if_neg hc, ih (fun hm => h (List.mem_cons_of_mem c hm))]

theorem splitOnChar_append_sep : ∀ (n t : List Char), '/' ∉ n →
    splitOnChar '/' (n ++ '/' :: t) = n :: splitOnChar '/' t := by
  intro n
  induction n with
  | nil =>
    intro t _
    show splitOnChar '/' ('/' :: t) = [] :: splitOnChar '/' t
    rw [splitOnChar_cons, if_pos rfl]
  | cons c cs ih =>
    intro t h
    have hc : c ≠ '/' := fun he => h (he ▸ List.mem_cons_self c cs)
    show splitOnChar '/' (c :: (cs ++ '/' :: t)) = (c :: cs) :: splitOnChar '/' t
    rw [splitOnChar_cons, if_neg hc, ih t (fun hm => h (List.mem_cons_of_mem c hm))]

theorem splitOnChar_joinPath : ∀ rel : List (List Char), rel ≠ [] →
    (∀ n ∈ rel, '/' ∉ n) →
    splitOnChar '/' (joinPath '/' rel) = rel := by
  intro rel
  induction rel with
  | nil =>
    intro h _
    exact absurd rfl h
  | cons n rest ih =>
    intro _ hv
    cases rest with
    | nil =>
      show splitOnChar '/' n = [n]
      exact splitOnChar_no_sep n (hv n (List.mem_cons_self n []))
    | cons n2 rest2 =>
      show splitOnChar '/' (n ++ '/' :: joinPath '/' (n2 :: rest2))
        = n :: n2 :: rest2
      rw [splitOnChar_append_sep n _ (hv n (List.mem_cons_self n _)),
        ih (fun hh => List.noConfusion hh)
          (fun x hx => hv x (List.mem_cons_of_mem n hx))]

theorem collapseDoubleSlash_mem : ∀ (s : List Char) (c : Char),
    c ∈ collapseDoubleSlash s → c ∈ s ∨ c = '/' := by
  intro s
  induction s using collapseDoubleSlash.induct with
  | case1 =>
    intro c hc
    cases hc
  | case2 d =>
    intro c hc
    exact Or.inl hc
  | case3 c1 c2 rest h ih =>
    intro c hc
    rw [collapseDoubleSlash, if_pos h] at hc
    rcases List.mem_cons.mp hc with he | hm
    · exact Or.inr he
    · rcases ih c hm with h1 | h1
      · exact Or.inl (List.mem_cons_of_mem c1 (List.mem_cons_of_mem c2 h1))
      · exact Or.inr h1
  | case4 c1 c2 rest h ih =>
    intro c hc
    rw [collapseDoubleSlash, if_neg h] at hc
    rcases List.mem_cons.mp hc with he | hm
    · exact Or.inl (he ▸ List.mem_cons_self c1 _)
    · rcases ih c hm with h1 | h1
      · exact Or.inl (List.mem_cons_of_mem c1 h1)
      · exact Or.inr h1

theorem toLeftSlash_no_backslash (s : List Char) : '\\' ∉ toLeftSlash s := by
  intro h
  unfold toLeftSlash at h
  rcases collapseDoubleSlash_mem _ '\\' h with h1 | h1
  · exact normalizeSlashes_no_backslash (replaceDoubleBackslash s) h1
  · exact absurd h1 (by decide)

/-- C8: an emitted image reference — the components of the image's path
relative to the scanned root, rendered with the host separator and then
backslash-normalized — contains no backslash character and splits on `/` into
exactly the scanned component names, so no `..` segment appears; `relative_to`
guarantees the reference is relative to the root; and `htmlc.toLeftSlash`
output is backslash-free as well. -/
theorem claim8_emitted_paths (sep : Char) (base p rel : List (List Char))
    (hsep : sep = '/' ∨ sep = '\\')
    (hrel : relative_to base p = some rel)
    (hne : rel ≠ [])
    (hv : ∀ n ∈ rel, n ≠ [] ∧ n ≠ ['.', '.'] ∧ '/' ∉ n ∧ '\\' ∉ n) :
    p = base ++ rel ∧
    '\\' ∉ emitSrcPath sep rel ∧
    splitOnChar '/' (emitSrcPath sep rel) = rel ∧
    ['.', '.'] ∉ splitOnChar '/' (emitSrcPath sep rel) ∧
    (∀ s : List Char, '\\' ∉ toLeftSlash s) := by
  have hsplit : splitOnChar '/' (emitSrcPath sep rel) = rel := by
    unfold emitSrcPath
    rw [normalizeSlashes_joinPath sep hsep rel (fun n hn => (hv n hn).2.2.2)]
    exact splitOnChar_joinPath rel hne (fun n hn => (hv n hn).2.2.1)
  refine ⟨relative_to_append base p rel hrel, ?_, hsplit, ?_, toLeftSlash_no_backslash⟩
  · exact normalizeSlashes_no_backslash (joinPath sep rel)
  · rw [hsplit]
    intro hmem
    exact (hv _ hmem).2.1 rfl

/-- Witness for C8: the Windows-rendered relative path `ch1\a.png` under root
`root` emits as `ch1/a.png` — backslash-free, splitting back into the scanned
component names — and `toLeftSlash` scrubs backslashes from a concrete mixed
path. -/
theorem claim8_emitted_paths_witness :
    (['r', 'o', 'o', 't'] :: ['c', 'h', '1'] :: [['a', '.', 'p', 'n', 'g']])
        = [['r', 'o', 'o', 't']] ++ [['c', 'h', '1'], ['a', '.', 'p', 'n', 'g']] ∧
    '\\' ∉ emitSrcPath '\\' [['c', 'h', '1'], ['a', '.', 'p', 'n', 'g']] ∧
    '\\' ∉ toLeftSlash ['C', ':', '\\', 'x', '\\', '\\', 'y'] := by
  have h := claim8_emitted_paths '\\' [['r', 'o', 'o', 't']]
    (['r', 'o', 'o', 't'] :: ['c', 'h', '1'] :: [['a', '.', 'p', 'n', 'g']])
    [['c', 'h', '1'], ['a', '.', 'p', 'n', 'g']]
    (Or.inr rfl) (by decide) (by decide) (by decide)
  exact ⟨h.1, h.2.1, h.2.2.2.2 ['C', ':', '\\', 'x', '\\', '\\', 'y']⟩

/-! ## Claim C10: htmlc.py first-dot classification -/

theorem splitOnChar_no_sep_gen (sep : Char) : ∀ n : List Char, sep ∉ n →
    splitOnChar sep n = [n] := by
  intro n
  induction n with
  | nil =>
    intro _
    rfl
  | cons c cs ih =>
    intro h
    have hc : c ≠ sep := fun he => h (he ▸ List.mem_cons_self c cs)
    rw [splitOnChar_cons, if_neg hc, ih (fun hm => h (List.mem_cons_of_mem c hm))]

theorem splitOnChar_ne_nil (sep : Char) : ∀ cs, splitOnChar sep cs ≠ [] := by
  intro cs
  cases cs with
  | nil => exact fun h => List.noConfusion h
  | cons c cs2 =>
    rw [splitOnChar_cons]
    by_cases h : c = sep
    · rw [if_pos h]
      exact fun hh => List.noConfusion hh
    · rw [if_neg h]
      cases hsp : splitOnChar sep cs2 with
      | nil => exact fun hh => List.noConfusion hh
      | cons a b => exact fun hh => List.noConfusion hh

theorem splitOnChar_length_ge_two (sep : Char) : ∀ cs : List Char, sep ∈ cs →
    2 ≤ (splitOnChar sep cs).length := by
  intro cs
  induction cs with
  | nil =>
    intro h
    cases h
  | cons c cs2 ih =>
    intro h
    rw [splitOnChar_cons]
    by_cases hc : c = sep
    · rw [if_pos hc, List.length_cons]
      have h1 : 0 < (splitOnChar sep cs2).length :=
        List.length_pos.mpr (splitOnChar_ne_nil sep cs2)
      omega
    · rw [if_neg hc]
      have hmem : sep ∈ cs2 := by
        rcases List.mem_cons.mp h with he | hm
        · exact absurd he.symm hc
        · exact hm
      have h2 := ih hmem
      cases hsp : splitOnChar sep cs2 with
      | nil => exact absurd hsp (splitOnChar_ne_nil sep cs2)
      | cons a rest =>
        rw [hsp, List.length_cons] at h2
        rw [List.length_cons]
        omega

theorem extSegment_no_dot (img : String) (h : '.' ∉ img.data) :
    extSegment img = none := by
  unfold extSegment
  rw [splitOnChar_no_sep_gen '.' img.data h]
  rfl

theorem extSegment_isSome_of_dot (img : String) (h : '.' ∈ img.data) :
    ∃ e, extSegment img = some e := by
  unfold extSegment
  have h2 := splitOnChar_length_ge_two '.' img.data h
  cases hl : splitOnChar '.' img.data with
  | nil =>
    rw [hl] at h2
    exact absurd h2 (by decide)
  | cons a rest =>
    cases rest with
    | nil =>
      rw [hl] at h2
      simp at h2
    | cons b rest2 =>
      refine ⟨b, ?_⟩
      simp

theorem emitLoop_cons (slpath img : String) (rest : List String) :
    emitLoop slpath (img :: rest) =
      match extSegment img with
      | none => Except.error ([], img)
      | some ext =>
        if ext ≠ "html".data ∧ ext ≠ "json".data then
          match emitLoop slpath rest with
          | Except.ok tags => Except.ok (emitLine slpath img :: tags)
          | Except.error (w, m) => Except.error (emitLine slpath img :: w, m)
        else
          match emitLoop slpath rest with
          | Except.ok tags => Except.ok tags
          | Except.error (w, m) => Except.error (w, m) := rfl

/-- C10: the htmlc.py loop classifies by the segment after the first dot of
the full path string — so `photo.backup/img.html` is inspected at
`backup/img`, not at the `html` extension, and is emitted as an image — and a
scanned path with no dot makes the index access fail (`extSegment` is `none`),
aborting the run at that file with the files after it never processed. -/
theorem claim10_first_dot_classification (slpath : String) (pre : List String)
    (bad : String) (hpre : ∀ f ∈ pre, '.' ∈ f.data) (hbad : '.' ∉ bad.data) :
    extSegment bad = none ∧
    (∃ w, ∀ post, emitLoop slpath (pre ++ bad :: post) = Except.error (w, bad)) ∧
    extSegment "photo.backup/img.html" = some "backup/img".data ∧
    emitLoop slpath ["photo.backup/img.html"]
      = Except.ok [emitLine slpath "photo.backup/img.html"] := by
  refine ⟨extSegment_no_dot bad hbad, ?_, by decide, rfl⟩
  induction pre with
  | nil =>
    refine ⟨[], fun post => ?_⟩
    show emitLoop slpath (bad :: post) = Except.error ([], bad)
    rw [emitLoop_cons, extSegment_no_dot bad hbad]
  | cons f pre2 ih =>
    have hf := hpre f (List.mem_cons_self f pre2)
    rcases ih (fun g hg => hpre g (List.mem_cons_of_mem f hg)) with ⟨w, hw⟩
    rcases extSegment_isSome_of_dot f hf with ⟨e, he⟩
    by_cases hcl : e ≠ "html".data ∧ e ≠ "json".data
    · refine ⟨emitLine slpath f :: w, fun post => ?_⟩
      show emitLoop slpath (f :: (pre2 ++ bad :: post)) = _
      rw [emitLoop_cons, he]
      show (if e ≠ "html".data ∧ e ≠ "json".data then
          match emitLoop slpath (pre2 ++ bad :: post) with
          | Except.ok tags => Except.ok (emitLine slpath f :: tags)
          | Except.error (w2, m) => Except.error (emitLine slpath f :: w2, m)
        else
          match emitLoop slpath (pre2 ++ bad :: post) with
          | Except.ok tags => Except.ok tags
          | Except.error (w2, m) => Except.error (w2, m))
        = Except.error (emitLine slpath f :: w, bad)
      rw [if_pos hcl, hw post]
    · refine ⟨w, fun post => ?_⟩
      show emitLoop slpath (f :: (pre2 ++ bad :: post)) = _
      rw [emitLoop_cons, he]
      show (if e ≠ "html".data ∧ e ≠ "json".data then
          match emitLoop slpath (pre2 ++ bad :: post) with
          | Except.ok tags => Except.ok (emitLine slpath f :: tags)
          | Except.error (w2, m) => Except.error (emitLine slpath f :: w2, m)
        else
          match emitLoop slpath (pre2 ++ bad :: post) with
          | Except.ok tags => Except.ok tags
          | Except.error (w2, m) => Except.error (w2, m))
        = Except.error (w, bad)
      rw [if_neg hcl, hw post]

/-- Witness for C10: scanning `a.png`, the dotless `noext`, then `b.png`
aborts at `noext` with only the first tag emitted and `b.png` untouched. -/
theorem claim10_first_dot_classification_witness :
    emitLoop "r" ["a.png", "noext", "b.png"]
      = Except.error ([emitLine "r" "a.png"], "noext") := by
  rcases (claim10_first_dot_classification "r" ["a.png"] "noext"
    (by decide) (by decide)).2.1 with ⟨w, hw⟩
  have h1 : emitLoop "r" ["a.png", "noext", "b.png"] = Except.error (w, "noext") :=
    hw ["b.png"]
  have h2 : Except.error (w, "noext")
      = (Except.error ([emitLine "r" "a.png"], "noext") :
          Except (List String × String) (List String)) :=
    h1.symm.trans rfl
  exact h1.trans h2
